import Mathlib

/-!
Verification of the yolo-sam detection pipeline specification.

Shallow embedding of `src/detection/onnx_detector.py`, `src/detection/app.py`
and `src/detection/coco.py`. Machine floats are modelled as rationals; external
numeric primitives (PIL resize, `np.exp`) are abstracted as function parameters
of the embedded operations. The grid-anchor post-processing lives in
`detection/utils.py`, which is not part of the sources; it is modelled from the
spec where a claim needs it (doc comments say so explicitly).
-/

/-- Python `round`: round half to even (banker's rounding), on rationals. -/
def pyRound (q : ℚ) : ℤ :=
  let f := ⌊q⌋
  let frac := q - (f : ℚ)
  if frac < 1/2 then f
  else if 1/2 < frac then f + 1
  else if f % 2 = 0 then f else f + 1

/-- Python `int(...)` on a float: truncation toward zero. -/
def ratTrunc (q : ℚ) : ℤ := if 0 ≤ q then ⌊q⌋ else ⌈q⌉

/-- A decoded image: width, height, and pixel accessor `px x y channel`
(PIL convention: `img.size = (w, h)`, pixel lookup by x then y). -/
structure Img where
  w : ℕ
  h : ℕ
  px : ℕ → ℕ → ℕ → ℚ

/-- A dense float tensor: declared shape plus a value accessor.
For the 4-D tensors built here the batch index is always 0 and is dropped;
`val c y x` reads channel `c`, row `y`, column `x`. -/
structure Tensor where
  shape : List ℕ
  val : ℕ → ℕ → ℕ → ℚ

/-- `min(target_w / orig_w, target_h / orig_h)` from `OnnxDetector._prepare_input`. -/
def letterboxScale (target_w target_h orig_w orig_h : ℕ) : ℚ :=
  min ((target_w : ℚ) / (orig_w : ℚ)) ((target_h : ℚ) / (orig_h : ℚ))

/-- The `(scaled_w, scaled_h) = (int(round(orig_w * ratio)), int(round(orig_h * ratio)))`
computation of `OnnxDetector._prepare_input`. -/
def letterboxScaled (img : Img) (target_w target_h : ℕ) : ℕ × ℕ :=
  let ratio := letterboxScale target_w target_h img.w img.h
  (((pyRound ((img.w : ℚ) * ratio)).toNat), ((pyRound ((img.h : ℚ) * ratio)).toNat))

/-- The padded canvas of `OnnxDetector._prepare_input` before normalisation:
a `target_h × target_w × 3` array filled with 114, with the resized image
pasted at the top-left corner (`inp[:scaled_h, :scaled_w, :] = npy_img`).
Indexing is `canvas y x c` (numpy HWC). The PIL resize is abstracted as the
`resize` parameter. -/
def letterboxCanvas (resize : Img → ℕ → ℕ → Img) (img : Img)
    (target_w target_h : ℕ) : ℕ → ℕ → ℕ → ℚ :=
  let s := letterboxScaled img target_w target_h
  let scaled_img := resize img s.1 s.2
  fun y x c => if y < s.2 ∧ x < s.1 then scaled_img.px x y c else 114

/-- `OnnxDetector._prepare_input`: letterbox preprocessing. Returns the tensor
(canvas scaled to [0,1], transposed to CHW, with a leading batch dimension
recorded in the shape), the original size `(orig_w, orig_h)` and the scaled
size `(scaled_w, scaled_h)`. -/
def prepare_input (resize : Img → ℕ → ℕ → Img) (img : Img)
    (target_w target_h : ℕ) : Tensor × (ℕ × ℕ) × (ℕ × ℕ) :=
  let s := letterboxScaled img target_w target_h
  let canvas := letterboxCanvas resize img target_w target_h
  (⟨[1, 3, target_h, target_w], fun c y x => canvas y x c / 255⟩,
    (img.w, img.h), (s.1, s.2))

/-- `OnnxDetector.MEANS` as a per-channel function. -/
def MEANS : ℕ → ℚ := fun c => if c = 0 then 485/1000 else if c = 1 then 456/1000 else 406/1000

/-- `OnnxDetector.STDS` as a per-channel function. -/
def STDS : ℕ → ℚ := fun c => if c = 0 then 229/1000 else if c = 1 then 224/1000 else 225/1000

/-- `OnnxDetector._prepare_input_rfdetr`: direct resize to the target size,
scale to [0,1], standardise by MEANS/STDS, transpose to CHW, batch dim. -/
def prepare_input_rfdetr (resize : Img → ℕ → ℕ → Img) (img : Img)
    (target_w target_h : ℕ) : Tensor × (ℕ × ℕ) :=
  let resized := resize img target_w target_h
  (⟨[1, 3, target_h, target_w],
      fun c y x => (resized.px x y c / 255 - MEANS c) / STDS c⟩,
    (img.w, img.h))

/-- A box in center-size form (cx, cy, w, h). -/
structure CBox where
  cx : ℚ
  cy : ℚ
  w : ℚ
  h : ℚ
deriving DecidableEq

/-- A box in corner form (xmin, ymin, xmax, ymax). -/
structure XBox where
  xmin : ℚ
  ymin : ℚ
  xmax : ℚ
  ymax : ℚ
deriving DecidableEq

/-- `OnnxDetector._box_cxcywh_to_xyxy`: center-size to corner conversion
followed by scaling by the image width/height. No clamping. -/
def box_cxcywh_to_xyxy (b : CBox) (w_img h_img : ℚ) : XBox :=
  ⟨(b.cx - b.w / 2) * w_img, (b.cy - b.h / 2) * h_img,
    (b.cx + b.w / 2) * w_img, (b.cy + b.h / 2) * h_img⟩

/-- The sigmoid `1 / (1 + exp(-x))`, with `exp` abstracted (np.exp). -/
def sigmoid (exp : ℚ → ℚ) (x : ℚ) : ℚ := 1 / (1 + exp (-x))

/-- `np.max` on a nonempty list (0 on the empty list, which never occurs:
the logits vector of a query is nonempty). -/
def npMax : List ℚ → ℚ
  | [] => 0
  | x :: xs => xs.foldl max x

/-- `np.argmax`: first index attaining the maximum. -/
def npArgmax (l : List ℚ) : ℕ := l.findIdx (fun x => x == npMax l)

/-- One raw query of the RF-DETR output: a normalized center-size box from
`pred_boxes` and the per-class logits row from `pred_logits`. -/
structure RawQuery where
  box : CBox
  logits : List ℚ

/-- The score of one query: max over the sigmoid of its logits. -/
def queryScore (exp : ℚ → ℚ) (q : RawQuery) : ℚ := npMax (q.logits.map (sigmoid exp))

/-- The label of one query: argmax over the sigmoid of its logits. -/
def queryLabel (exp : ℚ → ℚ) (q : RawQuery) : ℕ := npArgmax (q.logits.map (sigmoid exp))

/-- A query together with its computed score and label. -/
structure Scored where
  box : CBox
  score : ℚ
  label : ℕ

/-- Scores and labels of all queries (`scores = np.max(prob, axis=1)`,
`labels = np.argmax(prob, axis=1)` after the elementwise sigmoid). -/
def scoredQueries (exp : ℚ → ℚ) (qs : List RawQuery) : List Scored :=
  qs.map fun q => ⟨q.box, queryScore exp q, queryLabel exp q⟩

/-- Descending-score order used by `np.argsort(scores)[::-1]`. -/
def scoreOrder (a b : Scored) : Prop := b.score ≤ a.score

instance : DecidableRel scoreOrder := fun a b => inferInstanceAs (Decidable (b.score ≤ a.score))

instance : IsTotal Scored scoreOrder := ⟨fun a b => le_total b.score a.score⟩

instance : IsTrans Scored scoreOrder := ⟨fun _ _ _ hab hbc => le_trans hbc hab⟩

/-- The decoded result of one predict call (`DetectionResult` dataclass):
parallel lists of boxes, scores and labels; masks always absent. -/
structure DetectionResult where
  boxes : List XBox
  scores : List ℚ
  labels : List ℕ
  masks : Option Unit := none
deriving DecidableEq

/-- One entry of `DetectionResult.to_dict_list`, enriched by
`CocoClassMapper.map_class_names` with a class name. -/
structure DetDict where
  bbox : List ℤ
  score : ℚ
  class_id : ℤ
  class_name : Option String := none
deriving DecidableEq

/-- `DetectionResult.to_dict_list`: iterate `i in range(len(scores))`, truncate
box coordinates with `int(...)`. -/
def DetectionResult.to_dict_list (r : DetectionResult) : List DetDict :=
  (List.range r.scores.length).map fun i =>
    let b := r.boxes.getD i ⟨0, 0, 0, 0⟩
    { bbox := [ratTrunc b.xmin, ratTrunc b.ymin, ratTrunc b.xmax, ratTrunc b.ymax],
      score := r.scores.getD i 0,
      class_id := ((r.labels.getD i 0 : ℕ) : ℤ) }

/-- The decoding part of `OnnxDetector._predict_rfdetr`: sigmoid, per-query
max score and argmax label, sort by score descending, keep the top
`max_number_boxes`, drop scores `≤ conf_thres`, convert surviving boxes to
absolute corner form. -/
def decode_rfdetr (exp : ℚ → ℚ) (qs : List RawQuery) (conf_thres : ℚ)
    (max_number_boxes : ℕ) (w_img h_img : ℚ) : DetectionResult :=
  let sorted := List.insertionSort scoreOrder (scoredQueries exp qs)
  let top := sorted.take max_number_boxes
  let kept := top.filter fun s => decide (conf_thres < s.score)
  ⟨kept.map fun s => box_cxcywh_to_xyxy s.box w_img h_img,
    kept.map Scored.score, kept.map Scored.label, none⟩

/-- Modelled from the spec: one anchor row of the grid-detector raw output
(`detection/utils.py` is not among the sources; spec §4.4 describes the raw
output as per-anchor box coordinates plus per-class confidence). -/
structure Anchor where
  box : CBox
  class_scores : List ℚ

/-- Plain center-size to corner conversion (model space, no scaling). -/
def cornersOf (b : CBox) : XBox :=
  ⟨b.cx - b.w / 2, b.cy - b.h / 2, b.cx + b.w / 2, b.cy + b.h / 2⟩

/-- Intersection area of two corner-form boxes (clamped at 0). -/
def interArea (a b : XBox) : ℚ :=
  max 0 (min a.xmax b.xmax - max a.xmin b.xmin) *
    max 0 (min a.ymax b.ymax - max a.ymin b.ymin)

/-- Area of a corner-form box. -/
def boxArea (a : XBox) : ℚ := (a.xmax - a.xmin) * (a.ymax - a.ymin)

/-- Intersection-over-Union of two corner-form boxes. -/
def iouQ (a b : XBox) : ℚ := interArea a b / (boxArea a + boxArea b - interArea a b)

/-- A decoded candidate detection, carrying its input position `idx`
(used only for the stable tie-break of the sort). -/
structure IDet where
  idx : ℕ
  box : XBox
  score : ℚ
  cls : ℕ

/-- The processing order of NMS: higher score first, ties broken by input
order (stable sort). -/
def precR (a b : IDet) : Prop := b.score < a.score ∨ (a.score = b.score ∧ a.idx ≤ b.idx)

instance : DecidableRel precR := fun a b =>
  inferInstanceAs (Decidable (b.score < a.score ∨ (a.score = b.score ∧ a.idx ≤ b.idx)))

instance : IsTotal IDet precR where
  total a b := by
    rcases lt_trichotomy a.score b.score with hlt | heq | hgt
    · exact Or.inr (Or.inl hlt)
    · rcases Nat.le_total a.idx b.idx with hi | hi
      · exact Or.inl (Or.inr ⟨heq, hi⟩)
      · exact Or.inr (Or.inr ⟨heq.symm, hi⟩)
    · exact Or.inl (Or.inl hgt)

instance : IsTrans IDet precR where
  trans a b c hab hbc := by
    rcases hab with hab | ⟨hab, hia⟩
    · rcases hbc with hbc | ⟨hbc, _⟩
      · exact Or.inl (lt_trans hbc hab)
      · exact Or.inl (hbc ▸ hab)
    · rcases hbc with hbc | ⟨hbc, hib⟩
      · exact Or.inl (hab ▸ hbc)
      · exact Or.inr ⟨hab.trans hbc, le_trans hia hib⟩

/-- `a` strictly precedes `b`: higher score, or equal score and earlier input
position. -/
def strictPrec (a b : IDet) : Prop := b.score < a.score ∨ (a.score = b.score ∧ a.idx < b.idx)

/-- Two candidates conflict when they have the same predicted class and their
IoU exceeds the threshold. -/
def conflict (thres : ℚ) (a b : IDet) : Prop := a.cls = b.cls ∧ thres < iouQ a.box b.box

instance (thres : ℚ) : DecidableRel (conflict thres) := fun a b =>
  inferInstanceAs (Decidable (a.cls = b.cls ∧ thres < iouQ a.box b.box))

instance : DecidableRel strictPrec := fun a b =>
  inferInstanceAs (Decidable (b.score < a.score ∨ (a.score = b.score ∧ a.idx < b.idx)))

/-- Boolean form of `conflict`. -/
def conflictB (thres : ℚ) (a b : IDet) : Bool :=
  decide (a.cls = b.cls) && decide (thres < iouQ a.box b.box)

/-- Modelled from the spec: the greedy pass of class-aware NMS
(`detection/utils.py` is not among the sources). Candidates arrive in
processing order; one is kept exactly when it conflicts with no
previously-kept candidate. -/
def nmsGo (thres : ℚ) : List IDet → List IDet → List IDet
  | kept, [] => kept
  | kept, d :: rest =>
    if kept.any (fun k => conflictB thres k d) then nmsGo thres kept rest
    else nmsGo thres (kept ++ [d]) rest

/-- Attach input positions to a list of candidate detections. -/
def indexDets (dets : List (XBox × ℚ × ℕ)) : List IDet :=
  dets.enum.map fun p => ⟨p.1, p.2.1, p.2.2.1, p.2.2.2⟩

/-- Modelled from the spec: class-aware non-maximum suppression with
threshold `thres` (`detection/utils.py` is not among the sources; spec §4.4:
sort by score descending with stable ties, then suppress any box whose IoU
with a kept higher-scoring box of the same class exceeds the threshold). -/
def nms (thres : ℚ) (dets : List (XBox × ℚ × ℕ)) : List IDet :=
  nmsGo thres [] (List.insertionSort precR (indexDets dets))

/-- Modelled from the spec: `utils.post_process` (`detection/utils.py` is not
among the sources; spec §4.4 grid-anchor decoding): discard anchors whose
maximum class confidence is below `conf_thres`, convert survivors to corner
form, then apply class-aware NMS with threshold `iou_thres`. -/
def post_process (anchors : List Anchor) (conf_thres iou_thres : ℚ) : List IDet :=
  let cands := anchors.map fun a =>
    (cornersOf a.box, npMax a.class_scores, npArgmax a.class_scores)
  let surviving := cands.filter fun c => decide (conf_thres ≤ c.2.1)
  nms iou_thres surviving

/-- Modelled from the spec: `utils.scale_boxes` (`detection/utils.py` is not
among the sources; spec §4.1 `mapPaddedToOriginal`): boxes were predicted
against the letterboxed canvas at scale `ratio`; inversion divides each
coordinate by `ratio`. No clamping. -/
def scale_boxes (boxes : List XBox) (orig_size scaled_size : ℕ × ℕ) : List XBox :=
  let ratio : ℚ := min ((scaled_size.1 : ℚ) / (orig_size.1 : ℚ))
    ((scaled_size.2 : ℚ) / (orig_size.2 : ℚ))
  boxes.map fun b => ⟨b.xmin / ratio, b.ymin / ratio, b.xmax / ratio, b.ymax / ratio⟩

/-- The `OnnxDetector` state after a successful `__init__`, with the external
collaborators abstracted: `resize` stands for PIL `Image.resize`, `exp` for
`np.exp`, and `run_yolo` / `run_rfdetr` for the two uses of
`session.run` (the ONNX engine is an opaque callable). -/
structure OnnxDetector where
  model_type : String
  input_width : ℕ
  input_height : ℕ
  resize : Img → ℕ → ℕ → Img
  exp : ℚ → ℚ
  run_yolo : Tensor → List Anchor
  run_rfdetr : Tensor → List RawQuery

/-- `OnnxDetector._predict_rfdetr`: preprocess, run the engine, decode, and
scale boxes by the original image size. -/
def predict_rfdetr (det : OnnxDetector) (img : Img) (conf_thres : ℚ)
    (max_number_boxes : ℕ) : DetectionResult :=
  let pr := prepare_input_rfdetr det.resize img det.input_width det.input_height
  let qs := det.run_rfdetr pr.1
  decode_rfdetr det.exp qs conf_thres max_number_boxes (pr.2.1 : ℚ) (pr.2.2 : ℚ)

/-- `OnnxDetector._predict_yolov8`: letterbox preprocess (using the
introspected input width/height, not the `size` argument), run the engine,
post-process, scale boxes back to the original frame. The post-processing of
`detection/utils.py` is modelled from the spec. -/
def predict_yolov8 (det : OnnxDetector) (img : Img) (size : ℕ)
    (conf_thres iou_thres : ℚ) : DetectionResult :=
  let pr := prepare_input det.resize img det.input_width det.input_height
  let outs := det.run_yolo pr.1
  let kept := post_process outs conf_thres iou_thres
  let boxes := scale_boxes (kept.map IDet.box) pr.2.1 pr.2.2
  ⟨boxes, kept.map IDet.score, kept.map IDet.cls, none⟩

/-- `OnnxDetector.predict`: dispatch on the model family; unknown families
raise `ValueError`. No validation of the thresholds happens here. -/
def predict (det : OnnxDetector) (img : Img) (size : ℕ)
    (conf_thres iou_thres : ℚ) : Except String DetectionResult :=
  if det.model_type = "yolov8" then
    .ok (predict_yolov8 det img size conf_thres iou_thres)
  else if det.model_type = "rf-detr" then
    .ok (predict_rfdetr det img conf_thres 300)
  else
    .error (String.append "Unsupported model type: " det.model_type)

/-- One dimension of a declared ONNX input shape: a static integer or a
dynamic (symbolic) dimension. -/
inductive Dim where
  | static (n : ℕ)
  | dynamic (s : String)
deriving DecidableEq

/-- The input-size derivation of `OnnxDetector.__init__`: when the input has
a `shape` attribute with at least 4 entries, `shape[2:]` is unpacked into
`(input_height, input_width)` (a shape longer than 4 makes the unpacking
raise, which the surrounding `try` converts into a load error); otherwise
the 640×640 default is used. `unpackHW` models the tuple unpacking
`self.input_height, self.input_width = input_info.shape[2:]`. -/
def unpackHW (l : List Dim) : Except String (Dim × Dim) :=
  match l with
  | [h, w] => .ok (h, w)
  | _ => .error "Failed to load ONNX model"

/-- The input-size derivation of `OnnxDetector.__init__`. See `unpackHW`. -/
def deriveInputSize : Option (List Dim) → Except String (Dim × Dim)
  | none => .ok (.static 640, .static 640)
  | some dims =>
    if dims.length ≥ 4 then unpackHW (dims.drop 2)
    else .ok (.static 640, .static 640)

/-- `CocoClassMapper.map_class_names`: the class table is modelled as an
association list (the yaml contents are configuration data, not source).
Each detection dict gets `class_name = table.get(class_id - 1, "Unknown")`. -/
def map_class_names (table : List (ℤ × String)) (dets : List DetDict) : List DetDict :=
  dets.map fun d =>
    { d with class_name := some ((table.lookup (d.class_id - 1)).getD "Unknown") }

/-- The request body of the handler, with the fields `validate_body` reads.
`none` models an absent key. -/
structure RequestBody where
  image : Option String
  conf_thres : Option ℚ
  iou_thres : Option ℚ
  save_image : Option Bool

/-- The sanitized body produced by a successful validation. -/
structure ValidatedBody where
  image : String
  conf_thres : ℚ
  iou_thres : ℚ
  save_image : Bool
deriving DecidableEq

/-- `app.validate_body`: image is required and must decode (PIL decoding is
abstracted as the `decodeOk` parameter); `conf_thres` and `iou_thres` default
to 0.7 / 0.5 and must lie in [0,1], otherwise the range error is returned;
`save_image` defaults to `False`. Fields are checked in the rule order of the
source. -/
def validate_body (decodeOk : String → Bool) (body : RequestBody) :
    Except String ValidatedBody :=
  match body.image with
  | none => .error "Missing image key in request body"
  | some img =>
    if decodeOk img then
      let conf := (body.conf_thres).getD (7/10)
      if 0 ≤ conf ∧ conf ≤ 1 then
        let iou := (body.iou_thres).getD (1/2)
        if 0 ≤ iou ∧ iou ≤ 1 then
          .ok ⟨img, conf, iou, (body.save_image).getD false⟩
        else .error "iou_thres must be between 0 and 1"
      else .error "conf_thres must be between 0 and 1"
    else .error "Invalid image data. Must be base64 encoded."

/-- `app.detect`: read the thresholds from the body with their defaults (no
validation here), run the detector with the fixed SIZE 640, convert the
result to dicts and map class names. -/
def app_detect (det : OnnxDetector) (table : List (ℤ × String)) (img : Img)
    (conf_thres iou_thres : Option ℚ) : Except String (List DetDict) :=
  (predict det img 640 (conf_thres.getD (7/10)) (iou_thres.getD (1/2))).map
    fun r => map_class_names table r.to_dict_list

/-- A solid-color test image of the given dimensions. -/
def constImg (w h : ℕ) : Img := ⟨w, h, fun _ _ _ => 0⟩

/-- A concrete stand-in for PIL resize used to instantiate theorems: returns
an image of the requested dimensions. -/
def idResize : Img → ℕ → ℕ → Img := fun img w h => ⟨w, h, img.px⟩

/-- A concrete RF-DETR detector whose engine returns one query with box
(1/2, 1/2, 1/2, 1/2) and a single logit; `exp` is the constant 1, so the
sigmoid of every logit is 1/2. -/
def rfdetrDet1 : OnnxDetector :=
  ⟨"rf-detr", 640, 640, idResize, fun _ => 1, fun _ => [],
    fun _ => [⟨⟨1/2, 1/2, 1/2, 1/2⟩, [0]⟩]⟩

/-- A concrete RF-DETR detector whose engine returns one query with box
(0, 1/2, 1, 1): its xmin maps to a negative pixel coordinate. -/
def rfdetrDetNeg : OnnxDetector :=
  ⟨"rf-detr", 640, 640, idResize, fun _ => 1, fun _ => [],
    fun _ => [⟨⟨0, 1/2, 1, 1⟩, [0]⟩]⟩

/-- A 100×100 test image. -/
def img100 : Img := constImg 100 100

/-- A two-entry class table used to instantiate the class-mapper theorems. -/
def cocoTable : List (ℤ × String) := [(0, "person"), (1, "bicycle")]

/-- Membership from a successful association-list lookup. -/
theorem lookup_mem_pair {α β : Type} [BEq α] [LawfulBEq α] {k : α} {v : β} :
    ∀ {l : List (α × β)}, l.lookup k = some v → (k, v) ∈ l := by
  intro l
  induction l with
  | nil => intro h; simp [List.lookup] at h
  | cons p t ih =>
    rcases p with ⟨k1, v1⟩
    intro h
    cases hbeq : (k == k1) with
    | true =>
      simp only [List.lookup, hbeq] at h
      obtain rfl : v1 = v := Option.some.inj h
      obtain rfl : k = k1 := eq_of_beq hbeq
      exact List.mem_cons_self _ _
    | false =>
      simp only [List.lookup, hbeq] at h
      exact List.mem_cons_of_mem _ (ih h)

/-- C4: for every normalized center-size box (cx, cy, w, h) and original size
(origW, origH), `_box_cxcywh_to_xyxy` returns exactly
((cx − w/2)·origW, (cy − h/2)·origH, (cx + w/2)·origW, (cy + h/2)·origH),
with no clamping applied. -/
theorem C4_box_conversion (cx cy w h W H : ℚ) :
    box_cxcywh_to_xyxy ⟨cx, cy, w, h⟩ W H =
      ⟨(cx - w / 2) * W, (cy - h / 2) * H, (cx + w / 2) * W, (cy + h / 2) * H⟩ := rfl

/-- C10: the `size` argument of `OnnxDetector.predict` is never read by either
family's prediction path (both use the adapter's introspected input
width/height), so the result is identical for any two values of `size`. -/
theorem C10_size_has_no_influence (det : OnnxDetector) (img : Img)
    (conf_thres iou_thres : ℚ) (size1 size2 : ℕ) :
    predict det img size1 conf_thres iou_thres =
      predict det img size2 conf_thres iou_thres := rfl

/-- C5 counterexample: a dynamically-shaped 4-D input (symbolic height and
width) does not trigger the 640×640 fallback; the symbolic dimensions are
taken as-is, refuting that the fallback happens exactly when the shape is not
statically known. -/
theorem C5_counterexample :
    deriveInputSize
        (some [.dynamic "batch", .static 3, .dynamic "height", .dynamic "width"]) =
      .ok (.dynamic "height", .dynamic "width") ∧
    (Dim.dynamic "height", Dim.dynamic "width") ≠
      ((Dim.static 640 : Dim), (Dim.static 640 : Dim)) :=
  ⟨rfl, by decide⟩

/-- C5 (amended): `__init__` takes `shape[2:]` as (height, width) whenever the
declared shape has at least four entries — whether or not those entries are
static — falling back to 640×640 exactly when the shape attribute is absent
or has fewer than four entries; a shape with more than four entries makes the
load fail. -/
theorem C5_input_size_derivation (shape : Option (List Dim)) :
    (shape = none → deriveInputSize shape = .ok (.static 640, .static 640)) ∧
    (∀ dims, shape = some dims → dims.length < 4 →
      deriveInputSize shape = .ok (.static 640, .static 640)) ∧
    (∀ dims h0 w0, shape = some dims → dims.drop 2 = [h0, w0] →
      deriveInputSize shape = .ok (h0, w0)) ∧
    (∀ dims, shape = some dims → 4 < dims.length →
      deriveInputSize shape = .error "Failed to load ONNX model") := by
  refine ⟨?_, ?_, ?_, ?_⟩
  · rintro rfl; rfl
  · rintro dims rfl hlen
    simp only [deriveInputSize]
    rw [if_neg (by omega)]
  · rintro dims h0 w0 rfl hd
    have hlen : dims.length ≥ 4 := by
      have h2 : dims.length - 2 = 2 := by rw [← List.length_drop, hd]; rfl
      omega
    simp only [deriveInputSize]
    rw [if_pos hlen, hd]
    rfl
  · rintro dims rfl hlen
    have h3 : 3 ≤ (dims.drop 2).length := by rw [List.length_drop]; omega
    simp only [deriveInputSize]
    rw [if_pos (by omega)]
    rcases hdrop : dims.drop 2 with _ | ⟨a, _ | ⟨b, _ | ⟨c, t⟩⟩⟩ <;>
      simp_all [unpackHW]

/-- C5 witness: a statically-shaped 4-D input yields its declared
height/width (416×416 here), instantiating the amended derivation theorem. -/
theorem C5_witness :
    deriveInputSize (some [.static 1, .static 3, .static 416, .static 416]) =
      .ok (.static 416, .static 416) :=
  (C5_input_size_derivation
      (some [.static 1, .static 3, .static 416, .static 416])).2.2.1
    [.static 1, .static 3, .static 416, .static 416] (.static 416) (.static 416)
    rfl rfl

/-- C6 counterexample: with the table mapping 0 ↦ person and 1 ↦ bicycle,
a detection with class_id 1 is given the name the table associates with 0
("person"), not the name associated with its own class_id ("bicycle"); and a
detection with class_id 0 — an index present in the table — is given
"Unknown". Both refute the claim as stated. -/
theorem C6_counterexample :
    map_class_names cocoTable [{ bbox := [0, 0, 0, 0], score := 1/2, class_id := 1 }] =
      [{ bbox := [0, 0, 0, 0], score := 1/2, class_id := 1, class_name := some "person" }] ∧
    cocoTable.lookup 1 = some "bicycle" ∧
    map_class_names cocoTable [{ bbox := [0, 0, 0, 0], score := 1/2, class_id := 0 }] =
      [{ bbox := [0, 0, 0, 0], score := 1/2, class_id := 0, class_name := some "Unknown" }] ∧
    cocoTable.lookup 0 = some "person" :=
  ⟨rfl, rfl, rfl, rfl⟩

/-- C6 (amended): `map_class_names` assigns each detection the name the table
associates with `class_id − 1` (an off-by-one shift of the claimed lookup),
and assigns "Unknown" exactly when `class_id − 1` is not present in the table
(provided the table itself never maps an index to "Unknown"). -/
theorem C6_map_class_names (table : List (ℤ × String)) (dets : List DetDict)
    (d0 : DetDict) (i : ℕ) (hi : i < dets.length)
    (hU : ∀ p ∈ table, p.2 ≠ "Unknown") :
    (map_class_names table dets).getD i d0 =
      { dets.getD i d0 with
        class_name :=
          some ((table.lookup ((dets.getD i d0).class_id - 1)).getD "Unknown") } ∧
    (((map_class_names table dets).getD i d0).class_name = some "Unknown" ↔
      table.lookup ((dets.getD i d0).class_id - 1) = none) := by
  have hmap : (map_class_names table dets).getD i d0 =
      { dets.getD i d0 with
        class_name :=
          some ((table.lookup ((dets.getD i d0).class_id - 1)).getD "Unknown") } := by
    unfold map_class_names
    rw [List.getD_eq_getElem _ _ (by simpa using hi), List.getD_eq_getElem _ _ hi,
      List.getElem_map]
  refine ⟨hmap, ?_⟩
  rw [hmap]
  cases hL : table.lookup ((dets.getD i d0).class_id - 1) with
  | none => simp
  | some v =>
    have hv : v ≠ "Unknown" := hU _ (lookup_mem_pair hL)
    simp [hv]

/-- C6 witness: instantiating the amended theorem on a concrete detection
with class_id 2 over the two-entry table: the assigned name is the one the
table associates with index 1. -/
theorem C6_witness :
    (map_class_names cocoTable
        [{ bbox := [0, 0, 0, 0], score := 1, class_id := 2 }]).getD 0 ⟨[], 0, 0, none⟩ =
      { bbox := [0, 0, 0, 0], score := 1, class_id := 2,
        class_name := some ((cocoTable.lookup 1).getD "Unknown") } :=
  (C6_map_class_names cocoTable
      [{ bbox := [0, 0, 0, 0], score := 1, class_id := 2 }] ⟨[], 0, 0, none⟩ 0
      (by decide) (by decide)).1

/-- Outside the pasted region (row at or below the scaled height, or column at
or beyond the scaled width) the letterbox canvas holds the padding constant
114. -/
theorem letterboxCanvas_pad (resize : Img → ℕ → ℕ → Img) (img : Img)
    (target_w target_h y x c : ℕ)
    (h : (letterboxScaled img target_w target_h).2 ≤ y ∨
      (letterboxScaled img target_w target_h).1 ≤ x) :
    letterboxCanvas resize img target_w target_h y x c = 114 := by
  show (if y < (letterboxScaled img target_w target_h).2 ∧
      x < (letterboxScaled img target_w target_h).1 then
    (resize img (letterboxScaled img target_w target_h).1
      (letterboxScaled img target_w target_h).2).px x y c else (114 : ℚ)) = 114
  rcases h with h | h
  · exact if_neg fun hc => absurd hc.1 (not_lt.mpr h)
  · exact if_neg fun hc => absurd hc.2 (not_lt.mpr h)

/-- Inside the pasted region the canvas holds the resized image's pixel. -/
theorem letterboxCanvas_paste (resize : Img → ℕ → ℕ → Img) (img : Img)
    (target_w target_h y x c : ℕ)
    (hy : y < (letterboxScaled img target_w target_h).2)
    (hx : x < (letterboxScaled img target_w target_h).1) :
    letterboxCanvas resize img target_w target_h y x c =
      (resize img (letterboxScaled img target_w target_h).1
        (letterboxScaled img target_w target_h).2).px x y c := by
  show (if y < (letterboxScaled img target_w target_h).2 ∧
      x < (letterboxScaled img target_w target_h).1 then
    (resize img (letterboxScaled img target_w target_h).1
      (letterboxScaled img target_w target_h).2).px x y c else (114 : ℚ)) = _
  exact if_pos ⟨hy, hx⟩

/-- C3: for every image with positive dimensions and every target size, the
letterbox preparer computes `ratio = min(targetW/origW, targetH/origH)`,
resizes to `(round(origW·ratio), round(origH·ratio))`, pastes the resized
image at the top-left corner of a canvas filled with 114, scales to [0,1]
(dividing by 255), lays the tensor out channel-first with a leading batch
dimension of 1, and returns it with `(origW, origH)` and
`(scaledW, scaledH)`; every canvas cell below or right of the pasted region
still holds the padding constant. -/
theorem C3_letterbox_prepare (resize : Img → ℕ → ℕ → Img) (img : Img)
    (target_w target_h : ℕ) (hw : 0 < img.w) (hh : 0 < img.h) :
    letterboxScale target_w target_h img.w img.h =
      min ((target_w : ℚ) / (img.w : ℚ)) ((target_h : ℚ) / (img.h : ℚ)) ∧
    (prepare_input resize img target_w target_h).2.1 = (img.w, img.h) ∧
    (prepare_input resize img target_w target_h).2.2 =
      ((pyRound ((img.w : ℚ) * letterboxScale target_w target_h img.w img.h)).toNat,
        (pyRound ((img.h : ℚ) * letterboxScale target_w target_h img.w img.h)).toNat) ∧
    (prepare_input resize img target_w target_h).1.shape = [1, 3, target_h, target_w] ∧
    (∀ y x c, (prepare_input resize img target_w target_h).2.2.2 ≤ y →
      letterboxCanvas resize img target_w target_h y x c = 114 ∧
      (prepare_input resize img target_w target_h).1.val c y x = 114 / 255) ∧
    (∀ y x c, (prepare_input resize img target_w target_h).2.2.1 ≤ x →
      letterboxCanvas resize img target_w target_h y x c = 114 ∧
      (prepare_input resize img target_w target_h).1.val c y x = 114 / 255) ∧
    (∀ y x c, y < (prepare_input resize img target_w target_h).2.2.2 →
      x < (prepare_input resize img target_w target_h).2.2.1 →
      (prepare_input resize img target_w target_h).1.val c y x =
        (resize img (prepare_input resize img target_w target_h).2.2.1
          (prepare_input resize img target_w target_h).2.2.2).px x y c / 255) := by
  refine ⟨rfl, rfl, rfl, rfl, ?_, ?_, ?_⟩
  · intro y x c hy
    have hc := letterboxCanvas_pad resize img target_w target_h y x c (Or.inl hy)
    exact ⟨hc, by show letterboxCanvas resize img target_w target_h y x c / 255 = _; rw [hc]⟩
  · intro y x c hx
    have hc := letterboxCanvas_pad resize img target_w target_h y x c (Or.inr hx)
    exact ⟨hc, by show letterboxCanvas resize img target_w target_h y x c / 255 = _; rw [hc]⟩
  · intro y x c hy hx
    show letterboxCanvas resize img target_w target_h y x c / 255 = _
    rw [letterboxCanvas_paste resize img target_w target_h y x c hy hx]
    rfl

/-- The 1280×720 fixture image of the spec scenario. -/
def img1280 : Img := constImg 1280 720

/-- C3 witness: a 1280×720 image letterboxed into a 640×640 target yields
scaled size (640, 360); the canvas at row 360 holds 114 and the tensor there
holds 114/255. -/
theorem C3_witness :
    0 < img1280.w ∧ 0 < img1280.h ∧
    (prepare_input idResize img1280 640 640).2.2 = (640, 360) ∧
    (prepare_input idResize img1280 640 640).2.1 = (1280, 720) ∧
    letterboxCanvas idResize img1280 640 640 360 0 0 = 114 ∧
    (prepare_input idResize img1280 640 640).1.val 0 639 100 = 114 / 255 :=
  have hs : letterboxScaled img1280 640 640 = (640, 360) := by
    norm_num [letterboxScaled, letterboxScale, pyRound, min_def, img1280, constImg]
    exact ⟨rfl, rfl⟩
  ⟨by decide, by decide,
    by show letterboxScaled img1280 640 640 = (640, 360); exact hs,
    by decide,
    ((C3_letterbox_prepare idResize img1280 640 640 (by decide)
        (by decide)).2.2.2.2.1 360 0 0
      (by show (letterboxScaled img1280 640 640).2 ≤ 360; rw [hs])).1,
    ((C3_letterbox_prepare idResize img1280 640 640 (by decide)
        (by decide)).2.2.2.2.1 639 100 0
      (by show (letterboxScaled img1280 640 640).2 ≤ 639; rw [hs]; norm_num)).2⟩

/-- Dispatch of `predict` for the query-transformer family. -/
theorem predict_eq_rfdetr (det : OnnxDetector) (img : Img) (size : ℕ)
    (conf_thres iou_thres : ℚ) (hty : det.model_type = "rf-detr") :
    predict det img size conf_thres iou_thres =
      .ok (predict_rfdetr det img conf_thres 300) := by
  unfold predict
  rw [hty, if_neg (by decide), if_pos rfl]

/-- Dispatch of `predict` for the grid-anchor family. -/
theorem predict_eq_yolov8 (det : OnnxDetector) (img : Img) (size : ℕ)
    (conf_thres iou_thres : ℚ) (hty : det.model_type = "yolov8") :
    predict det img size conf_thres iou_thres =
      .ok (predict_yolov8 det img size conf_thres iou_thres) := by
  unfold predict
  rw [hty, if_pos rfl]

/-- C1 (amended): out-of-range `conf_thres` / `iou_thres` are rejected with a
range error only at the calling boundary (`validate_body`); the pipeline
itself (`OnnxDetector.predict`) performs no threshold validation and returns
a `DetectionResult` for any threshold value. -/
theorem C1_validation_at_boundary_only (decodeOk : String → Bool)
    (body : RequestBody) (s : String) (himg : body.image = some s)
    (hok : decodeOk s = true) :
    (∀ c, body.conf_thres = some c → c < 0 ∨ 1 < c →
      validate_body decodeOk body = .error "conf_thres must be between 0 and 1") ∧
    (∀ j, body.iou_thres = some j → j < 0 ∨ 1 < j →
      0 ≤ (body.conf_thres).getD (7/10) → (body.conf_thres).getD (7/10) ≤ 1 →
      validate_body decodeOk body = .error "iou_thres must be between 0 and 1") ∧
    (∀ det img size conf_thres iou_thres, det.model_type = "rf-detr" →
      predict det img size conf_thres iou_thres =
        .ok (predict_rfdetr det img conf_thres 300)) ∧
    (∀ det img size conf_thres iou_thres, det.model_type = "yolov8" →
      predict det img size conf_thres iou_thres =
        .ok (predict_yolov8 det img size conf_thres iou_thres)) := by
  refine ⟨?_, ?_, ?_, ?_⟩
  · intro c hc hrange
    have hcond : ¬(0 ≤ c ∧ c ≤ 1) := by
      rintro ⟨h0, h1⟩; rcases hrange with h | h <;> linarith
    simp only [validate_body, himg, hok, if_true, hc, Option.getD_some]
    rw [if_neg hcond]
  · intro j hj hrange h0 h1
    have hcond : ¬(0 ≤ j ∧ j ≤ 1) := by
      rintro ⟨ha, hb⟩; rcases hrange with h | h <;> linarith
    simp only [validate_body, himg, hok, if_true, hj, Option.getD_some]
    rw [if_pos ⟨h0, h1⟩, if_neg hcond]
  · intro det img size conf_thres iou_thres hty
    exact predict_eq_rfdetr det img size conf_thres iou_thres hty
  · intro det img size conf_thres iou_thres hty
    exact predict_eq_yolov8 det img size conf_thres iou_thres hty

/-- C1 counterexample: calling the pipeline directly with the out-of-range
threshold `conf_thres = -1` does not fail — it silently returns a
`DetectionResult` (here with one detection), refuting the claim that every
such call fails. -/
theorem C1_counterexample :
    predict rfdetrDet1 img100 640 (-1) (1/2) =
      .ok ⟨[⟨25, 25, 75, 75⟩], [1/2], [0], none⟩ := by
  rw [predict_eq_rfdetr rfdetrDet1 img100 640 (-1) (1/2) rfl]
  norm_num [predict_rfdetr, prepare_input_rfdetr, decode_rfdetr, rfdetrDet1,
    img100, constImg, idResize, scoredQueries, queryScore, queryLabel, npMax, npArgmax,
    sigmoid, List.insertionSort, List.orderedInsert, List.filter, List.findIdx_cons,
    box_cxcywh_to_xyxy]

/-- C1 witness: the boundary validator rejects `conf_thres = 2`, while the
pipeline happily returns a result for the same value. -/
theorem C1_witness :
    validate_body (fun _ => true) ⟨some "x", some 2, none, none⟩ =
      .error "conf_thres must be between 0 and 1" ∧
    predict rfdetrDet1 img100 640 2 (1/2) =
      .ok (predict_rfdetr rfdetrDet1 img100 2 300) :=
  ⟨(C1_validation_at_boundary_only (fun _ => true) ⟨some "x", some 2, none, none⟩
      "x" rfl rfl).1 2 rfl (Or.inr (by norm_num)),
    (C1_validation_at_boundary_only (fun _ => true) ⟨some "x", some 2, none, none⟩
      "x" rfl rfl).2.2.1 rfdetrDet1 img100 640 2 (1/2) rfl⟩

/-- When every query's score is at or below the confidence threshold, the
query-transformer decoder returns the empty result. -/
theorem decode_rfdetr_all_below (exp : ℚ → ℚ) (qs : List RawQuery)
    (conf_thres : ℚ) (n : ℕ) (w_img h_img : ℚ)
    (hq : ∀ q ∈ qs, queryScore exp q ≤ conf_thres) :
    decode_rfdetr exp qs conf_thres n w_img h_img = ⟨[], [], [], none⟩ := by
  unfold decode_rfdetr
  have hkept : ((List.insertionSort scoreOrder (scoredQueries exp qs)).take n).filter
      (fun s => decide (conf_thres < s.score)) = [] := by
    rw [List.filter_eq_nil_iff]
    intro s hs
    have hs1 : s ∈ List.insertionSort scoreOrder (scoredQueries exp qs) :=
      List.mem_of_mem_take hs
    have hs2 : s ∈ scoredQueries exp qs :=
      (List.perm_insertionSort scoreOrder _).subset hs1
    obtain ⟨q, hqmem, rfl⟩ := List.mem_map.mp hs2
    simp only [decide_eq_true_eq]
    exact not_lt.mpr (hq q hqmem)
  simp only [hkept]
  rfl

/-- C7: when decoding filters out every candidate (all query scores at or
below `conf_thres`), the pipeline raises no error — it returns a
`DetectionResult` with empty detection lists, and the handler-level
conversion yields an empty list of detection dicts. -/
theorem C7_empty_result_not_error (det : OnnxDetector) (img : Img) (size : ℕ)
    (conf_thres iou_thres : ℚ) (hty : det.model_type = "rf-detr")
    (hq : ∀ q ∈ det.run_rfdetr
        (prepare_input_rfdetr det.resize img det.input_width det.input_height).1,
      queryScore det.exp q ≤ conf_thres) :
    predict det img size conf_thres iou_thres = .ok ⟨[], [], [], none⟩ ∧
    DetectionResult.to_dict_list ⟨[], [], [], none⟩ = [] := by
  constructor
  · rw [predict_eq_rfdetr det img size conf_thres iou_thres hty]
    simp only [predict_rfdetr]
    rw [decode_rfdetr_all_below _ _ _ _ _ _ hq]
  · rfl

/-- C7 witness: the single query's score 1/2 is below the default threshold
0.7, and the pipeline returns the empty result without error. -/
theorem C7_witness :
    predict rfdetrDet1 img100 640 (7/10) (1/2) = .ok ⟨[], [], [], none⟩ ∧
    DetectionResult.to_dict_list ⟨[], [], [], none⟩ = [] :=
  C7_empty_result_not_error rfdetrDet1 img100 640 (7/10) (1/2) rfl (by
    intro q hq
    rcases List.mem_singleton.mp hq with rfl
    norm_num [queryScore, npMax, sigmoid, rfdetrDet1])

/-- Filtering a length-n prefix yields at most `min n (count of matches)`
elements. -/
theorem filter_take_length_le {α : Type} (p : α → Bool) (n : ℕ) (l : List α) :
    (List.filter p (List.take n l)).length ≤ min n (l.countP p) :=
  le_min (le_trans (List.length_filter_le _ _) (List.length_take_le _ _))
    (le_of_eq_of_le (List.countP_eq_length_filter p _).symm
      ((List.take_sublist n l).countP_le p))

/-- The query-transformer decoder returns at most
`min n (count of queries scoring above the threshold)` detections. -/
theorem decode_rfdetr_scores_length (exp : ℚ → ℚ) (qs : List RawQuery)
    (conf_thres : ℚ) (n : ℕ) (w_img h_img : ℚ) :
    (decode_rfdetr exp qs conf_thres n w_img h_img).scores.length ≤
      min n (qs.countP fun q => decide (conf_thres < queryScore exp q)) := by
  unfold decode_rfdetr
  simp only [List.length_map]
  have h := filter_take_length_le (fun s : Scored => decide (conf_thres < s.score)) n
    (List.insertionSort scoreOrder (scoredQueries exp qs))
  rw [(List.perm_insertionSort scoreOrder (scoredQueries exp qs)).countP_eq] at h
  rw [scoredQueries, List.countP_map] at h
  exact h

/-- The scores returned by the query-transformer decoder are sorted in
descending order. -/
theorem decode_rfdetr_scores_sorted (exp : ℚ → ℚ) (qs : List RawQuery)
    (conf_thres : ℚ) (n : ℕ) (w_img h_img : ℚ) :
    (decode_rfdetr exp qs conf_thres n w_img h_img).scores.Pairwise
      (fun a b : ℚ => b ≤ a) := by
  unfold decode_rfdetr
  refine List.Pairwise.map _ (fun a b h => h) ?_
  exact (List.sorted_insertionSort scoreOrder _).sublist
    ((List.filter_sublist _).trans (List.take_sublist _ _))

/-- C2: for every raw model output and every threshold, `_predict_rfdetr`
returns at most `min(300, count(score > conf_thres))` detections, and the
returned scores are sorted descending. -/
theorem C2_topk_and_sorted (det : OnnxDetector) (img : Img) (conf_thres : ℚ) :
    (predict_rfdetr det img conf_thres 300).scores.length ≤
      min 300 ((det.run_rfdetr (prepare_input_rfdetr det.resize img
          det.input_width det.input_height).1).countP
        fun q => decide (conf_thres < queryScore det.exp q)) ∧
    (predict_rfdetr det img conf_thres 300).scores.Pairwise
      (fun a b : ℚ => b ≤ a) :=
  ⟨decode_rfdetr_scores_length _ _ _ _ _ _, decode_rfdetr_scores_sorted _ _ _ _ _ _⟩

/-- The sigmoid is positive when `exp` is positive everywhere. -/
theorem sigmoid_pos {exp : ℚ → ℚ} (hexp : ∀ x, 0 < exp x) (x : ℚ) :
    0 < sigmoid exp x := by
  unfold sigmoid
  have h := hexp (-x)
  exact div_pos one_pos (by linarith)

/-- The sigmoid is at most 1 when `exp` is positive everywhere. -/
theorem sigmoid_le_one {exp : ℚ → ℚ} (hexp : ∀ x, 0 < exp x) (x : ℚ) :
    sigmoid exp x ≤ 1 := by
  unfold sigmoid
  have h := hexp (-x)
  rw [div_le_one (by linarith)]
  linarith

/-- A fold of `max` stays below any common upper bound. -/
theorem foldl_max_le {c : ℚ} :
    ∀ (l : List ℚ) (a : ℚ), a ≤ c → (∀ y ∈ l, y ≤ c) → l.foldl max a ≤ c := by
  intro l
  induction l with
  | nil => intro a ha _; simpa using ha
  | cons y ys ih =>
    intro a ha hl
    simp only [List.foldl_cons]
    exact ih (max a y) (max_le ha (hl y (List.mem_cons_self y ys)))
      (fun z hz => hl z (List.mem_cons_of_mem _ hz))

/-- `np.max` of a list of values all at most `c ≥ 0` is at most `c`. -/
theorem npMax_le {l : List ℚ} {c : ℚ} (h0 : 0 ≤ c) (h : ∀ x ∈ l, x ≤ c) :
    npMax l ≤ c := by
  cases l with
  | nil => simpa [npMax] using h0
  | cons x xs =>
    exact foldl_max_le xs x (h x (List.mem_cons_self _ _))
      (fun y hy => h y (List.mem_cons_of_mem _ hy))

/-- Every query's score is at most 1 when `exp` is positive everywhere. -/
theorem queryScore_le_one {exp : ℚ → ℚ} (hexp : ∀ x, 0 < exp x) (q : RawQuery) :
    queryScore exp q ≤ 1 := by
  unfold queryScore
  refine npMax_le zero_le_one ?_
  intro x hx
  obtain ⟨t, _, rfl⟩ := List.mem_map.mp hx
  exact sigmoid_le_one hexp t

/-- Every candidate surviving the query-transformer filter scores above the
threshold and originates from a raw query. -/
theorem mem_decode_kept {exp : ℚ → ℚ} {qs : List RawQuery} {conf_thres : ℚ}
    {n : ℕ} {s : Scored}
    (hs : s ∈ ((List.insertionSort scoreOrder (scoredQueries exp qs)).take n).filter
      (fun t => decide (conf_thres < t.score))) :
    conf_thres < s.score ∧
      ∃ q ∈ qs, s = ⟨q.box, queryScore exp q, queryLabel exp q⟩ := by
  have h1 := List.of_mem_filter hs
  have h2 := List.mem_of_mem_filter hs
  have h3 := List.mem_of_mem_take h2
  have h4 := (List.perm_insertionSort scoreOrder _).subset h3
  obtain ⟨q, hq, hfq⟩ := List.mem_map.mp h4
  exact ⟨of_decide_eq_true h1, q, hq, hfq.symm⟩

/-- C8 (amended): every returned score lies in [conf_thres, 1] (for a
positive `exp`, as the real exponential is), and every returned box satisfies
xmin ≤ xmax and ymin ≤ ymax provided the raw boxes have nonnegative width and
height; no clamping is applied, so coordinates may be negative. -/
theorem C8_score_box_invariants (det : OnnxDetector) (img : Img)
    (conf_thres : ℚ) (hexp : ∀ x, 0 < det.exp x)
    (hwh : ∀ q ∈ det.run_rfdetr
        (prepare_input_rfdetr det.resize img det.input_width det.input_height).1,
      0 ≤ q.box.w ∧ 0 ≤ q.box.h) :
    (∀ s ∈ (predict_rfdetr det img conf_thres 300).scores,
      conf_thres ≤ s ∧ s ≤ 1) ∧
    (∀ b ∈ (predict_rfdetr det img conf_thres 300).boxes,
      b.xmin ≤ b.xmax ∧ b.ymin ≤ b.ymax) := by
  constructor
  · intro s hs
    obtain ⟨t, ht, rfl⟩ := List.mem_map.mp hs
    obtain ⟨hgt, q, hq, rfl⟩ := mem_decode_kept ht
    exact ⟨le_of_lt hgt, queryScore_le_one hexp q⟩
  · intro b hb
    obtain ⟨t, ht, rfl⟩ := List.mem_map.mp hb
    obtain ⟨hgt, q, hq, rfl⟩ := mem_decode_kept ht
    obtain ⟨hw0, hh0⟩ := hwh q hq
    simp only [box_cxcywh_to_xyxy]
    constructor
    · exact mul_le_mul_of_nonneg_right (by linarith) (Nat.cast_nonneg _)
    · exact mul_le_mul_of_nonneg_right (by linarith) (Nat.cast_nonneg _)

/-- C8 counterexample: a kept detection whose box has xmin = −50 < 0 — no
clamping to nonnegative coordinates happens, refuting the "all ≥ 0 after
clamping" part of the claim. -/
theorem C8_counterexample :
    (predict_rfdetr rfdetrDetNeg img100 (3/10) 300).boxes = [⟨-50, 0, 50, 100⟩] ∧
    (-50 : ℚ) < 0 := by
  constructor
  · norm_num [predict_rfdetr, prepare_input_rfdetr, decode_rfdetr, rfdetrDetNeg, img100,
      constImg, idResize, scoredQueries, queryScore, queryLabel, npMax, npArgmax, sigmoid,
      List.insertionSort, List.orderedInsert, List.filter, List.findIdx_cons,
      box_cxcywh_to_xyxy]
  · norm_num

/-- C8 witness: the returned score 1/2 of the concrete detector lies in
[conf_thres, 1] for conf_thres = 3/10. -/
theorem C8_witness :
    (1/2 : ℚ) ∈ (predict_rfdetr rfdetrDet1 img100 (3/10) 300).scores ∧
    ((3/10 : ℚ) ≤ 1/2 ∧ (1/2 : ℚ) ≤ 1) := by
  have hmem : (1/2 : ℚ) ∈ (predict_rfdetr rfdetrDet1 img100 (3/10) 300).scores := by
    have h : (predict_rfdetr rfdetrDet1 img100 (3/10) 300).scores = [1/2] := by
      norm_num [predict_rfdetr, prepare_input_rfdetr, decode_rfdetr, rfdetrDet1, img100,
        constImg, idResize, scoredQueries, queryScore, queryLabel, npMax, npArgmax, sigmoid,
        List.insertionSort, List.orderedInsert, List.filter, List.findIdx_cons]
    rw [h]
    exact List.mem_singleton.mpr rfl
  refine ⟨hmem, (C8_score_box_invariants rfdetrDet1 img100 (3/10)
    (fun x => one_pos) ?_).1 (1/2) hmem⟩
  intro q hq
  rcases List.mem_singleton.mp hq with rfl
  norm_num

/-- Intersection area is symmetric. -/
theorem interArea_comm (a b : XBox) : interArea a b = interArea b a := by
  unfold interArea
  rw [min_comm a.xmax b.xmax, max_comm a.xmin b.xmin, min_comm a.ymax b.ymax,
    max_comm a.ymin b.ymin]

/-- IoU is symmetric. -/
theorem iouQ_comm (a b : XBox) : iouQ a b = iouQ b a := by
  unfold iouQ
  rw [interArea_comm, add_comm (boxArea a) (boxArea b)]

/-- Conflict (same class and IoU above threshold) is symmetric. -/
theorem conflict_symm {thres : ℚ} {a b : IDet} (h : conflict thres a b) :
    conflict thres b a :=
  ⟨h.1.symm, by rw [iouQ_comm]; exact h.2⟩

/-- The boolean conflict test decides the conflict proposition. -/
theorem conflictB_eq_decide (thres : ℚ) (a b : IDet) :
    conflictB thres a b = decide (conflict thres a b) := by
  show (decide (a.cls = b.cls) && decide (thres < iouQ a.box b.box)) =
    decide (a.cls = b.cls ∧ thres < iouQ a.box b.box)
  exact (Bool.decide_and _ _).symm

/-- Everything already kept survives the rest of the greedy pass. -/
theorem mem_nmsGo_of_mem_kept (thres : ℚ) :
    ∀ (l kept : List IDet) (x : IDet), x ∈ kept → x ∈ nmsGo thres kept l := by
  intro l
  induction l with
  | nil => intro kept x hx; simpa [nmsGo] using hx
  | cons d rest ih =>
    intro kept x hx
    simp only [nmsGo]
    split
    · exact ih kept x hx
    · exact ih (kept ++ [d]) x (List.mem_append_left _ hx)

/-- Everything the greedy pass returns was kept before or is a candidate. -/
theorem mem_of_mem_nmsGo (thres : ℚ) :
    ∀ (l kept : List IDet) (x : IDet), x ∈ nmsGo thres kept l → x ∈ kept ∨ x ∈ l := by
  intro l
  induction l with
  | nil => intro kept x hx; simp only [nmsGo] at hx; exact Or.inl hx
  | cons d rest ih =>
    intro kept x hx
    simp only [nmsGo] at hx
    split at hx
    · rcases ih kept x hx with h | h
      · exact Or.inl h
      · exact Or.inr (List.mem_cons_of_mem _ h)
    · rcases ih (kept ++ [d]) x hx with h | h
      · rcases List.mem_append.mp h with h1 | h1
        · exact Or.inl h1
        · exact Or.inr (List.mem_cons.mpr (Or.inl (List.mem_singleton.mp h1)))
      · exact Or.inr (List.mem_cons_of_mem _ h)

/-- No two distinct elements of a list are in conflict. -/
def NoConf (thres : ℚ) (l : List IDet) : Prop :=
  ∀ a ∈ l, ∀ b ∈ l, a ≠ b → ¬ conflict thres a b

/-- The greedy pass preserves mutual non-conflict of the kept list: the
returned detections never contain two distinct same-class boxes whose IoU
exceeds the threshold. -/
theorem nmsGo_noconf (thres : ℚ) :
    ∀ (l kept : List IDet), NoConf thres kept → NoConf thres (nmsGo thres kept l) := by
  intro l
  induction l with
  | nil => intro kept h; simpa [nmsGo] using h
  | cons d rest ih =>
    intro kept h
    simp only [nmsGo]
    split
    · exact ih kept h
    · rename_i hany
      apply ih
      have hfalse : ∀ k ∈ kept, ¬ conflict thres k d := by
        intro k hk hcf
        exact hany (List.any_eq_true.mpr
          ⟨k, hk, by rw [conflictB_eq_decide]; exact decide_eq_true hcf⟩)
      intro a ha b hb hne
      rcases List.mem_append.mp ha with ha1 | ha1
      · rcases List.mem_append.mp hb with hb1 | hb1
        · exact h a ha1 b hb1 hne
        · obtain rfl := List.mem_singleton.mp hb1
          exact hfalse a ha1
      · obtain rfl := List.mem_singleton.mp ha1
        rcases List.mem_append.mp hb with hb1 | hb1
        · intro hcf
          exact hfalse b hb1 (conflict_symm hcf)
        · obtain rfl := List.mem_singleton.mp hb1
          exact absurd rfl hne

/-- A weak precedence plus distinct input positions gives strict precedence. -/
theorem strictPrec_of_precR {a b : IDet} (h : precR a b) (hne : a.idx ≠ b.idx) :
    strictPrec a b := by
  rcases h with h | ⟨he, hi⟩
  · exact Or.inl h
  · exact Or.inr ⟨he, lt_of_le_of_ne hi hne⟩

/-- Input positions separate the kept accumulator from the pending list. -/
theorem idx_ne_of_nodup {kept l : List IDet}
    (hnd : ((kept ++ l).map IDet.idx).Nodup) {k x : IDet}
    (hk : k ∈ kept) (hx : x ∈ l) : k.idx ≠ x.idx := by
  rw [List.map_append] at hnd
  have hdisj := (List.nodup_append.mp hnd).2.2
  intro he
  exact hdisj (List.mem_map_of_mem _ hk) (he ▸ List.mem_map_of_mem _ hx)

/-- If a candidate is dropped by the greedy pass, some kept detection of the
same class, with strictly higher precedence, conflicts with it. -/
theorem nmsGo_removed (thres : ℚ) :
    ∀ (l kept : List IDet),
      List.Sorted precR l →
      (∀ k ∈ kept, ∀ y ∈ l, precR k y) →
      ((kept ++ l).map IDet.idx).Nodup →
      ∀ x ∈ l, x ∉ nmsGo thres kept l →
        ∃ a ∈ nmsGo thres kept l, conflict thres a x ∧ strictPrec a x := by
  intro l
  induction l with
  | nil => intro kept _ _ _ x hx; exact absurd hx (List.not_mem_nil x)
  | cons d rest ih =>
    intro kept hsort hord hnd x hx hxnot
    have hsort' : List.Sorted precR rest := (List.sorted_cons.mp hsort).2
    have hd_rest : ∀ y ∈ rest, precR d y := (List.sorted_cons.mp hsort).1
    simp only [nmsGo] at hxnot ⊢
    by_cases hany : List.any kept (fun k => conflictB thres k d) = true
    · rw [if_pos hany] at hxnot ⊢
      rcases List.mem_cons.mp hx with rfl | hx'
      · obtain ⟨k, hk, hcB⟩ := List.any_eq_true.mp hany
        have hcf : conflict thres k x := by
          rw [conflictB_eq_decide] at hcB
          exact of_decide_eq_true hcB
        refine ⟨k, mem_nmsGo_of_mem_kept thres rest kept k hk, hcf, ?_⟩
        exact strictPrec_of_precR (hord k hk x (List.mem_cons_self _ _))
          (idx_ne_of_nodup hnd hk (List.mem_cons_self _ _))
      · refine ih kept hsort'
          (fun k hk y hy => hord k hk y (List.mem_cons_of_mem _ hy)) ?_ x hx' hxnot
        exact hnd.sublist
          (((List.sublist_cons_self d rest).append_left kept).map IDet.idx)
    · rw [if_neg hany] at hxnot ⊢
      rcases List.mem_cons.mp hx with rfl | hx'
      · exact absurd (mem_nmsGo_of_mem_kept thres rest (kept ++ [x]) x
          (List.mem_append_right _ (List.mem_singleton.mpr rfl))) hxnot
      · refine ih (kept ++ [d]) hsort' ?_ ?_ x hx' hxnot
        · intro k hk y hy
          rcases List.mem_append.mp hk with hk1 | hk1
          · exact hord k hk1 y (List.mem_cons_of_mem _ hy)
          · obtain rfl := List.mem_singleton.mp hk1
            exact hd_rest y hy
        · have heq : (kept ++ [d]) ++ rest = kept ++ d :: rest := by
            rw [List.append_assoc]; rfl
          rw [heq]
          exact hnd

/-- The input positions attached by `indexDets` are pairwise distinct. -/
theorem indexDets_idx_nodup (dets : List (XBox × ℚ × ℕ)) :
    ((indexDets dets).map IDet.idx).Nodup := by
  unfold indexDets
  rw [List.map_map]
  have heq : (IDet.idx ∘ fun p : ℕ × (XBox × ℚ × ℕ) =>
      (⟨p.1, p.2.1, p.2.2.1, p.2.2.2⟩ : IDet)) = Prod.fst := rfl
  rw [heq, List.enum_map_fst]
  exact List.nodup_range _

/-- C9 (spec-modelled NMS): in grid-anchor decoding, a lower-precedence box
(lower score, or equal score and later input position — the stable tie-break)
of the same predicted class is removed whenever its IoU with a kept
higher-precedence box exceeds `iou_thres`; and a box is removed only because
of a kept box of the same class — overlap with a different class never
removes it. -/
theorem C9_nms_class_aware (iou_thres : ℚ) (dets : List (XBox × ℚ × ℕ)) :
    (∀ a ∈ nms iou_thres dets, ∀ b ∈ indexDets dets,
      strictPrec a b → conflict iou_thres a b → b ∉ nms iou_thres dets) ∧
    (∀ b ∈ indexDets dets, b ∉ nms iou_thres dets →
      ∃ a ∈ nms iou_thres dets, a.cls = b.cls ∧ iou_thres < iouQ a.box b.box ∧
        strictPrec a b) := by
  constructor
  · intro a ha b hb hprec hcf hbmem
    unfold nms at ha hbmem
    have hnc := nmsGo_noconf iou_thres
      (List.insertionSort precR (indexDets dets)) []
      (fun x hx => absurd hx (List.not_mem_nil x))
    have hne : a ≠ b := by
      intro h
      rw [h] at hprec
      rcases hprec with h1 | ⟨_, h2⟩
      · exact lt_irrefl _ h1
      · exact lt_irrefl _ h2
    exact hnc a ha b hbmem hne hcf
  · intro b hb hbnot
    unfold nms at hbnot ⊢
    have hbs : b ∈ List.insertionSort precR (indexDets dets) :=
      (List.perm_insertionSort precR _).mem_iff.mpr hb
    have hnd : ((([] : List IDet) ++
        List.insertionSort precR (indexDets dets)).map IDet.idx).Nodup := by
      rw [List.nil_append]
      exact (((List.perm_insertionSort precR (indexDets dets)).map
        IDet.idx).nodup_iff).mpr (indexDets_idx_nodup dets)
    obtain ⟨a, ha, ⟨hc1, hc2⟩, hsp⟩ := nmsGo_removed iou_thres
      (List.insertionSort precR (indexDets dets)) []
      (List.sorted_insertionSort precR _)
      (fun k hk => absurd hk (List.not_mem_nil k))
      hnd b hbs hbnot
    exact ⟨a, ha, hc1, hc2, hsp⟩

/-- Two identical same-class boxes with scores 9/10 and 8/10, used to
instantiate the NMS theorem. -/
def nmsDets : List (XBox × ℚ × ℕ) :=
  [(⟨0, 0, 10, 10⟩, 9/10, 0), (⟨0, 0, 10, 10⟩, 8/10, 0)]

/-- C9 witness: on two identical boxes of the same class (IoU 1 > 1/2), the
lower-scoring one is suppressed. -/
theorem C9_witness :
    (⟨1, ⟨0, 0, 10, 10⟩, 8/10, 0⟩ : IDet) ∈ indexDets nmsDets ∧
    (⟨1, ⟨0, 0, 10, 10⟩, 8/10, 0⟩ : IDet) ∉ nms (1/2) nmsDets := by
  have hidx : indexDets nmsDets =
      [⟨0, ⟨0, 0, 10, 10⟩, 9/10, 0⟩, ⟨1, ⟨0, 0, 10, 10⟩, 8/10, 0⟩] := rfl
  have hnms : nms (1/2) nmsDets = [⟨0, ⟨0, 0, 10, 10⟩, 9/10, 0⟩] := by
    norm_num [nms, nmsDets, indexDets, nmsGo, conflictB, iouQ, interArea, boxArea,
      List.insertionSort, List.orderedInsert, precR, List.enum, List.enumFrom]
  constructor
  · rw [hidx]
    exact List.mem_cons_of_mem _ (List.mem_singleton.mpr rfl)
  · exact (C9_nms_class_aware (1/2) nmsDets).1 ⟨0, ⟨0, 0, 10, 10⟩, 9/10, 0⟩
      (by rw [hnms]; exact List.mem_singleton.mpr rfl)
      ⟨1, ⟨0, 0, 10, 10⟩, 8/10, 0⟩
      (by rw [hidx]; exact List.mem_cons_of_mem _ (List.mem_singleton.mpr rfl))
      (Or.inl (by norm_num))
      ⟨rfl, by norm_num [iouQ, interArea, boxArea]⟩
